import Mathlib

/-!
Verification of the blazemarker calendar core (`calendar_db` package and the
calendar parts of `index.go`).

The Go code works with `time.Time` values in a single location (`time.Local`
for event times; `UTC` only changes rendering, not the instant).  We embed an
instant as an `Int`: the number of seconds since 1970-01-01 00:00:00, with the
civil (proleptic Gregorian) calendar given by `civilFromDays`/`daysFromCivil`.
These two functions compute the same year/month/day ↔ day-number bijection as
Go's `time` package (Go uses an equivalent absolute-day algorithm); durations
are seconds.  Strings are embedded as `List Char`.
-/

namespace Blazemarker

/-! ## Civil calendar arithmetic (the date math of Go's `time` package) -/

/-- Day number (days since 1970-01-01) of a civil date with `m ∈ [1,12]`.
Proleptic Gregorian calendar, Howard Hinnant's algorithm with floor
division (`Int./` is euclidean division, which agrees with floor division
for the positive divisors used here). -/
def daysFromCivil (y m d : Int) : Int :=
  let y1 : Int := if m ≤ 2 then y - 1 else y
  let era : Int := y1 / 400
  let yoe : Int := y1 - era * 400
  let mp : Int := if 2 < m then m - 3 else m + 9
  let doy : Int := (153 * mp + 2) / 5 + d - 1
  let doe : Int := yoe * 365 + yoe / 4 - yoe / 100 + doy
  era * 146097 + doe - 719468

/-- Civil date `(year, month, day)` of a day number. Inverse of
`daysFromCivil` on normalized dates. -/
def civilFromDays (z : Int) : Int × Int × Int :=
  let z1 : Int := z + 719468
  let era : Int := z1 / 146097
  let doe : Int := z1 - era * 146097
  let yoe : Int := (doe - doe / 1460 + doe / 36524 - doe / 146096) / 365
  let y : Int := yoe + era * 400
  let doy : Int := doe - (365 * yoe + yoe / 4 - yoe / 100)
  let mp : Int := (5 * doy + 2) / 153
  let d : Int := doy - (153 * mp + 2) / 5 + 1
  let m : Int := if mp < 10 then mp + 3 else mp - 9
  (if m ≤ 2 then y + 1 else y, m, d)

/-- Go `norm(year, month-1, 12)`: bring a month outside `[1,12]` into range,
moving whole years. Go's `norm` is exactly floored division / modulus. -/
def normYM (y m : Int) : Int × Int :=
  (y + (m - 1) / 12, (m - 1) % 12 + 1)

/-- Day number of Go `time.Date(y, m, d, …)`: months are normalized, then an
out-of-range day simply offsets from the 1st of the month (Go's day
overflow rule). -/
def goDateDays (y m d : Int) : Int :=
  daysFromCivil (normYM y m).1 (normYM y m).2 1 + (d - 1)

/-- Instant (seconds) of Go `time.Date(y, m, d, 0, 0, secs, 0, loc)`. -/
def goDate (y m d secs : Int) : Int :=
  86400 * goDateDays y m d + secs

/-- The civil date an instant falls on (Go `t.Year(), t.Month(), t.Day()`). -/
def dateTriple (t : Int) : Int × Int × Int :=
  civilFromDays (t / 86400)

/-- Go `t.AddDate(ys, ms, ds)`: take the civil date and clock of `t`,
offset the date fields, and renormalize via `time.Date`. -/
def goAddDate (t ys ms ds : Int) : Int :=
  let c := dateTriple t
  goDate (c.1 + ys) (c.2.1 + ms) (c.2.2 + ds) (t % 86400)

/-- The zero `time.Time` (January 1, year 1, 00:00:00), the value Go's
`IsZero` tests for. -/
def goTimeZero : Int := goDate 1 1 1 0

/-- Go `t.Weekday()` as a number, Sunday = 0 (1970-01-01 was a Thursday). -/
def weekday (dayNum : Int) : Int := (dayNum + 4) % 7

/-! ## Characters, digits and string helpers -/

/-- The decimal digit character for `k ≤ 9` (Go's integer formatting). -/
def dch : Nat → Char
  | 0 => '0' | 1 => '1' | 2 => '2' | 3 => '3' | 4 => '4'
  | 5 => '5' | 6 => '6' | 7 => '7' | 8 => '8' | 9 => '9'
  | _ => '?'

/-- Go's `c >= '0' && c <= '9'` digit test (the check in `DeleteEvent`). -/
def isDigitC (c : Char) : Bool := 48 ≤ c.toNat && c.toNat ≤ 57

/-- Numeric value of a digit character. -/
def dval (c : Char) : Nat := c.toNat - 48

/-- ASCII white space, as trimmed by `strings.TrimSpace` on RRULE fields. -/
def isSpaceC (c : Char) : Bool :=
  c = ' ' || c = '\t' || c = '\n' || c = '\r'

/-- Go `strings.TrimSpace`. -/
def trimC (s : List Char) : List Char :=
  ((s.dropWhile isSpaceC).reverse.dropWhile isSpaceC).reverse

/-- Decimal rendering, fuelled so the kernel can evaluate it; `fuel ≥ n`
always suffices since `n / 10 < n` for `n ≥ 10`. -/
def natDigitsGo : Nat → Nat → List Char
  | 0, n => [dch n]
  | fuel + 1, n =>
    if n < 10 then [dch n] else natDigitsGo fuel (n / 10) ++ [dch (n % 10)]

/-- Decimal rendering of a natural number (Go's `%d` / `strconv.Itoa`). -/
def natDigits (n : Nat) : List Char := natDigitsGo n n

/-- Value of a digit string read left to right. -/
def digitsVal (s : List Char) : Nat :=
  s.foldl (fun acc c => 10 * acc + dval c) 0

/-- Go `fmt.Sscanf(value, "%d", &x)` into a 64-bit `int`: skip leading
spaces, optional sign, then at least one digit; trailing bytes are
ignored.  `none` when no integer can be read or when the value is
outside the `int64` range `[-2^63, 2^63 - 1]` (`strconv.ParseInt`
reports "value out of range"); in both failure cases Go leaves `x`
unchanged. -/
def sscanfInt (s : List Char) : Option Int :=
  let s1 := s.dropWhile isSpaceC
  let sign : Int := if s1.head? = some '-' then -1 else 1
  let s2 := if s1.head? = some '-' ∨ s1.head? = some '+' then s1.tail else s1
  let ds := s2.takeWhile isDigitC
  if ds.isEmpty then none
  else
    let v : Int := sign * (digitsVal ds : Int)
    if v < -(2 ^ 63) ∨ 2 ^ 63 - 1 < v then none else some v

/-- Go `strings.Split(s, sep)` for a one-character separator. -/
def splitOnC (c : Char) : List Char → List (List Char)
  | [] => [[]]
  | x :: xs =>
    match splitOnC c xs with
    | [] => [[]]
    | h :: t => if x = c then [] :: h :: t else (x :: h) :: t

/-- Go `strings.SplitN(s, sep, 2)` for a one-character separator: split at
the first occurrence; `none` when the separator is absent (Go returns a
single piece, which the RRULE parser skips). -/
def splitN2 (c : Char) : List Char → Option (List Char × List Char)
  | [] => none
  | x :: xs =>
    if x = c then some ([], xs)
    else
      match splitN2 c xs with
      | none => none
      | some (a, b) => some (x :: a, b)

/-- Go `strings.ReplaceAll(s, [a,b], [c])`: replace every occurrence of the
two-character pattern `a b` with the character `c`, scanning left to
right without overlap. -/
def replace2 (a b c : Char) : List Char → List Char
  | [] => []
  | [x] => [x]
  | x :: y :: rest =>
    if x = a ∧ y = b then c :: replace2 a b c rest
    else x :: replace2 a b c (y :: rest)

/-- Go `strings.LastIndex(s, "-")` (index of the last occurrence, `-1` when
absent). -/
def lastIndexOf (c : Char) : List Char → Int
  | [] => -1
  | x :: xs =>
    let r := lastIndexOf c xs
    if 0 ≤ r then r + 1 else if x = c then 0 else -1

/-! ## Date formatting and parsing (`Format`/`Parse` with the layouts the
code uses: `"20060102"` and `"20060102T150405Z"`) -/

/-- Four-digit zero padding (Go prints all digits when the value needs more
than four, and a sign handled by the caller). -/
def pad4 (n : Nat) : List Char :=
  if n ≤ 9999 then
    [dch (n / 1000), dch (n / 100 % 10), dch (n / 10 % 10), dch (n % 10)]
  else natDigits n

/-- Two-digit zero padding. -/
def pad2 (n : Nat) : List Char := [dch (n / 10), dch (n % 10)]

/-- Go `t.Format("20060102")` applied to a civil date triple. -/
def fmtCivil8 (c : Int × Int × Int) : List Char :=
  (if c.1 < 0 then '-' :: pad4 (-c.1).toNat else pad4 c.1.toNat) ++
    pad2 c.2.1.toNat ++ pad2 c.2.2.toNat

/-- Go `t.Format("20060102")` of an instant. -/
def fmtDate8 (t : Int) : List Char := fmtCivil8 (dateTriple t)

/-- Go `t.Format("20060102T150405Z")` of an instant (after `t.UTC()`, which
does not change the instant). -/
def fmtDateTime15Z (t : Int) : List Char :=
  fmtDate8 t ++ 'T' :: (pad2 ((t % 86400) / 3600).toNat ++
    pad2 ((t % 86400) / 60 % 60).toNat ++ pad2 ((t % 86400) % 60).toNat) ++ ['Z']

/-- Go leap-year rule. -/
def isLeap (y : Nat) : Bool := y % 4 = 0 && (y % 100 ≠ 0 || y % 400 = 0)

/-- Days in a month, as Go `time.Parse` validates them. -/
def daysInMonth (y m : Nat) : Nat :=
  if m = 2 then (if isLeap y then 29 else 28)
  else if m = 4 ∨ m = 6 ∨ m = 9 ∨ m = 11 then 30
  else 31

/-- Go `time.Parse("20060102", s)`: exactly eight digits making a valid
civil date. -/
def parseDate8 (s : List Char) : Option (Nat × Nat × Nat) :=
  match s with
  | [y1, y2, y3, y4, m1, m2, d1, d2] =>
    if ([y1, y2, y3, y4, m1, m2, d1, d2].all isDigitC) then
      let y := 1000 * dval y1 + 100 * dval y2 + 10 * dval y3 + dval y4
      let mo := 10 * dval m1 + dval m2
      let dy := 10 * dval d1 + dval d2
      if 1 ≤ mo ∧ mo ≤ 12 ∧ 1 ≤ dy ∧ dy ≤ daysInMonth y mo then
        some (y, mo, dy)
      else none
    else none
  | _ => none

/-- Go `time.Parse("20060102", s)` as an instant (midnight). -/
def parseDate8Time (s : List Char) : Option Int :=
  (parseDate8 s).map (fun c => goDate (c.1 : Int) (c.2.1 : Int) (c.2.2 : Int) 0)

/-- Go `time.Parse("20060102T150405Z", s)`. -/
def parseDateTime15Z (s : List Char) : Option Int :=
  match s with
  | y1 :: y2 :: y3 :: y4 :: m1 :: m2 :: d1 :: d2 :: 'T' :: h1 :: h2 :: n1 :: n2 :: s1 :: s2 :: ['Z'] =>
    match parseDate8 [y1, y2, y3, y4, m1, m2, d1, d2] with
    | some c =>
      if ([h1, h2, n1, n2, s1, s2].all isDigitC) then
        let hh := 10 * dval h1 + dval h2
        let nn := 10 * dval n1 + dval n2
        let ss := 10 * dval s1 + dval s2
        if hh ≤ 23 ∧ nn ≤ 59 ∧ ss ≤ 59 then
          some (goDate (c.1 : Int) (c.2.1 : Int) (c.2.2 : Int)
            (3600 * (hh : Int) + 60 * (nn : Int) + (ss : Int)))
        else none
      else none
    | none => none
  | _ => none

/-! ## The event record (`calendar_db.Event`) -/

/-- The record `calendar_db.Event` (`part_009`): the fields the claims touch.  Times are
instants; `RRule` and the string fields are character lists. -/
structure Event where
  UID : List Char
  Title : List Char
  Description : List Char
  Location : List Char
  StartTime : Int
  EndTime : Int
  AllDay : Bool
  Attendees : List (List Char)
  RRule : List Char
deriving DecidableEq, Repr

/-! ## The RRULE decoder inside `expandRecurringEvent` (lines 257–298) -/

/-- The parser state of `expandRecurringEvent`: `freq`, `count`, `interval`
and `until` exactly as the Go locals (with `until` the zero time when the
rule has no parseable UNTIL). -/
structure RRuleParams where
  freq : List Char
  count : Int
  interval : Int
  untilT : Int
deriving DecidableEq, Repr

def keyFREQ : List Char := ['F', 'R', 'E', 'Q']
def keyCOUNT : List Char := ['C', 'O', 'U', 'N', 'T']
def keyINTERVAL : List Char := ['I', 'N', 'T', 'E', 'R', 'V', 'A', 'L']
def keyUNTIL : List Char := ['U', 'N', 'T', 'I', 'L']
def freqDAILY : List Char := ['D', 'A', 'I', 'L', 'Y']
def freqWEEKLY : List Char := ['W', 'E', 'E', 'K', 'L', 'Y']
def freqMONTHLY : List Char := ['M', 'O', 'N', 'T', 'H', 'L', 'Y']
def freqYEARLY : List Char := ['Y', 'E', 'A', 'R', 'L', 'Y']

/-- The defaults of the Go locals: `count = 365`, `interval = 1`, empty
frequency, zero `until`. -/
def rruleDefaults : RRuleParams :=
  { freq := [], count := 365, interval := 1, untilT := goTimeZero }

/-- One `case` of the `switch key` in the parser loop. -/
def parseRRulePart (acc : RRuleParams) (part : List Char) : RRuleParams :=
  match splitN2 '=' part with
  | none => acc
  | some kv =>
    let key := trimC kv.1
    let value := trimC kv.2
    if key = keyFREQ then { acc with freq := value }
    else if key = keyCOUNT then
      match sscanfInt value with
      | some n => { acc with count := n }
      | none => acc
    else if key = keyINTERVAL then
      match sscanfInt value with
      | some n => { acc with interval := n }
      | none => acc
    else if key = keyUNTIL then
      match parseDateTime15Z value with
      | some t => { acc with untilT := t }
      | none =>
        match parseDate8Time value with
        | some t => { acc with untilT := t }
        | none => acc
    else acc

/-- Unescape `\;` and `\,` (lines 265–266), then split on `;` and fold the
recognized fields over the defaults (lines 269–293).  Unknown keys and
parts without `=` are skipped; unparseable values leave the defaults. -/
def parseRRule (rrule : List Char) : RRuleParams :=
  (splitOnC ';' (replace2 '\\' ',' ',' (replace2 '\\' ';' ';' rrule))).foldl
    parseRRulePart rruleDefaults

/-! ## The expansion loop (`expandRecurringEvent`, lines 300–357) -/

/-- The `switch freq` advancing `currentTime` (lines 338–352); `none` is the
`default` branch (unknown frequency). -/
def stepTime (freq : List Char) (interval t : Int) : Option Int :=
  if freq = freqDAILY then some (goAddDate t 0 0 interval)
  else if freq = freqWEEKLY then some (goAddDate t 0 0 (7 * interval))
  else if freq = freqMONTHLY then some (goAddDate t 0 interval 0)
  else if freq = freqYEARLY then some (goAddDate t interval 0 0)
  else none

/-- The EXDATE test (lines 316–325): compare year, month and day only. -/
def isExcludedAt (t : Int) (exdates : List Int) : Bool :=
  exdates.any (fun x => dateTriple t = dateTriple x)

/-- One emitted occurrence (lines 328–333): the base event with shifted
start/end and the `<uid>-<YYYYMMDD>` instance UID. -/
def mkOccurrence (base : Event) (t dur : Int) : Event :=
  { base with
    StartTime := t
    EndTime := t + dur
    UID := base.UID ++ '-' :: fmtDate8 t }

/-- The `for i := 0; i < count; i++` loop (lines 304–353), with the
iteration bound as structural fuel.  Each pass checks the two break
conditions, emits the occurrence when it is inside the window and not
excluded, and advances by the frequency step; an unknown frequency
returns what has been collected. -/
def expandLoop (base : Event) (freq : List Char) (interval untilT startD endD : Int)
    (exdates : List Int) (dur : Int) : Nat → Int → List Event
  | 0, _ => []
  | fuel + 1, cur =>
    if endD < cur then []
    else if untilT ≠ goTimeZero ∧ untilT < cur then []
    else
      let emit : List Event :=
        if startD ≤ cur ∧ ¬ isExcludedAt cur exdates then [mkOccurrence base cur dur]
        else []
      match stepTime freq interval cur with
      | some next => emit ++ expandLoop base freq interval untilT startD endD exdates dur fuel next
      | none => emit

/-- The `count > 1000` safety cap (lines 296–298). -/
def effCount (c : Int) : Int := if 1000 < c then 1000 else c

/-- The function `expandRecurringEvent(baseEvent, rrule, startDate, endDate, exdates)`. -/
def expandRecurringEvent (base : Event) (rrule : List Char)
    (startD endD : Int) (exdates : List Int) : List Event :=
  let p := parseRRule rrule
  expandLoop base p.freq p.interval p.untilT startD endD exdates
    (base.EndTime - base.StartTime) (effCount p.count).toNat base.StartTime

/-! ## `GetCalendarEvents` post-fetch processing (lines 219–250) -/

/-- One parsed VEVENT as handed to the expansion step: the event fields, the
RRULE property when present, and the parsed EXDATE instants. -/
structure MasterComp where
  ev : Event
  rrule : Option (List Char)
  exdates : List Int
deriving DecidableEq, Repr

/-- Lines 234–240: a master with an RRULE is expanded; one without is
appended as a single event, with no window check of its own. -/
def eventsFromMaster (m : MasterComp) (startD endD : Int) : List Event :=
  match m.rrule with
  | some r => expandRecurringEvent m.ev r startD endD m.exdates
  | none => [m.ev]

/-- Sorting by start time (lines 245–247, `sort.Slice` with
`StartTime.Before`); insertion sort realizes the same ordering. -/
def insertByStart (x : Event) : List Event → List Event
  | [] => [x]
  | y :: ys => if x.StartTime < y.StartTime then x :: y :: ys else y :: insertByStart x ys

def sortByStart (l : List Event) : List Event := l.foldr insertByStart []

/-- The pure part of `GetCalendarEvents`: expand every returned master and
sort the result by start time. -/
def getCalendarEvents (ms : List MasterComp) (startD endD : Int) : List Event :=
  sortByStart (ms.flatMap (fun m => eventsFromMaster m startD endD))

/-! ## Instance identity (`DeleteEvent` lines 558–578 and
`servDeleteCalendarEvent` lines 839–852) -/

/-- The instance identifier `fmt.Sprintf("%s-%s", uid,
currentTime.Format("20060102"))` for a civil occurrence date. -/
def instanceUID (masterID : List Char) (y mo d : Nat) : List Char :=
  masterID ++ '-' :: (pad4 y ++ pad2 mo ++ pad2 d)

/-- Resolution of a possibly-instance UID: `strings.LastIndex(uid, "-")`
with `idx > 0`, an 8-character all-digit suffix test (`DeleteEvent`), and
the suffix parsed as a date (`servDeleteCalendarEvent`).  Returns the
master UID, the parsed occurrence date if any, and the instance flag. -/
def resolveUID (uid : List Char) : List Char × Option (Nat × Nat × Nat) × Bool :=
  let idx := lastIndexOf '-' uid
  if 0 < idx then
    let datePart := uid.drop (idx.toNat + 1)
    if datePart.length = 8 ∧ datePart.all isDigitC then
      (uid.take idx.toNat, parseDate8 datePart, true)
    else (uid, none, false)
  else (uid, none, false)

/-! ## The exception editor (`DeleteEvent` lines 580–638) -/

def nameDTSTART : List Char := ['D', 'T', 'S', 'T', 'A', 'R', 'T']
def nameEXDATE : List Char := ['E', 'X', 'D', 'A', 'T', 'E']

/-- A VEVENT component's property list.  go-ical keeps `Props` as a map
from name to a slice of properties; `Get` reads the first entry of a
name's slice and `Add` appends to it, so a flat association list (with
`filter` as the per-name slice) carries the same data. -/
abbrev PropList : Type := List (List Char × List Char)

/-- All values stored under a property name, in order (the name's slice). -/
def propsGetAll (name : List Char) (props : PropList) : List (List Char) :=
  (props.filter (fun p => p.1 = name)).map (fun p => p.2)

/-- go-ical `Props.Get`: first value under the name, if any. -/
def propsGetFirst (name : List Char) (props : PropList) : Option (List Char) :=
  (props.find? (fun p => p.1 = name)).map (fun p => p.2)

/-- Lines 607–621: the EXDATE value matches DTSTART's granularity — a bare
date when DTSTART has 8 characters (all-day), a UTC timestamp otherwise,
and a bare date when DTSTART is missing. -/
def exdateValueFor (props : PropList) (instDate : Int) : List Char :=
  match propsGetFirst nameDTSTART props with
  | some v => if v.length = 8 then fmtDate8 instDate else fmtDateTime15Z instDate
  | none => fmtDate8 instDate

/-- Lines 623–625: `Props.Add` of the new EXDATE — append, nothing else
touched; the whole record is then written back (`UpdateEvent`). -/
def addExclusion (props : PropList) (instDate : Int) : PropList :=
  props ++ [(nameEXDATE, exdateValueFor props instDate)]

/-! ## The month grid (`servCalendar`, lines 583–660) -/

/-- The walk `for startDate.Weekday() != time.Sunday { -1 day }`; it needs
at most six steps, so fuel 7 always suffices. -/
def backToSunday : Nat → Int → Int
  | 0, d => d
  | fuel + 1, d => if weekday d = 0 then d else backToSunday fuel (d - 1)

/-- The walk `for endDate.Weekday() != time.Saturday { +1 day }`. -/
def fwdToSaturday : Nat → Int → Int
  | 0, d => d
  | fuel + 1, d => if weekday d = 6 then d else fwdToSaturday fuel (d + 1)

/-- Go `t.AddDate(ys, ms, ds)` restricted to midnight values, on day numbers. -/
def addDateDays (dayNum ys ms ds : Int) : Int :=
  let c := civilFromDays dayNum
  goDateDays (c.1 + ys) (c.2.1 + ms) (c.2.2 + ds)

/-- One cell of the month grid (`CalendarDay`); `day`/`isOtherMonth` come
from the cell's civil date, `isToday` from comparing the rendered date
with today's (equal renderings of day-number-stepped midnights are equal
day numbers). -/
structure CalendarDay where
  day : Int
  date : Int × Int × Int
  isOtherMonth : Bool
  isToday : Bool
deriving DecidableEq, Repr

/-- The grid build of `servCalendar`: `firstDay`/`lastDay` of the target
month, padding out to Sunday/Saturday, then one cell per day from
`startDate` up to and including `endDate` (the loop runs while
`currentDate.Before(endDate.AddDate(0,0,1))`). -/
def calendarGrid (y m todayDay : Int) : List CalendarDay :=
  let firstDay := goDateDays y m 1
  let lastDay := addDateDays firstDay 0 1 (-1)
  let startD := backToSunday 7 firstDay
  let endD := fwdToSaturday 7 lastDay
  (List.range (endD + 1 - startD).toNat).map (fun (i : Nat) =>
    let cur : Int := startD + i
    { day := (civilFromDays cur).2.2
      date := civilFromDays cur
      isOtherMonth := decide ((civilFromDays cur).2.1 ≠ m)
      isToday := decide (cur = todayDay) })

/-! ## The encoder (`convertToRRule`, index.go lines 878–891) -/

def litFREQeq : List Char := ['F', 'R', 'E', 'Q', '=']
def litINTERVALCOUNT : List Char :=
  [';', 'I', 'N', 'T', 'E', 'R', 'V', 'A', 'L', '=', '1', ';', 'C', 'O', 'U', 'N', 'T', '=']

/-- The encoder `convertToRRule`: `"DAILY:10"` becomes `"FREQ=DAILY;INTERVAL=1;COUNT=10"`;
without a colon the result is the empty string. -/
def convertToRRule (recurrenceRule : List Char) : List Char :=
  match splitN2 ':' recurrenceRule with
  | none => []
  | some fc => litFREQeq ++ fc.1 ++ litINTERVALCOUNT ++ fc.2

/-! ## Specification-side notions and concrete instances used in
counterexamples and witnesses -/

def nameSUMMARY : List Char := ['S', 'U', 'M', 'M', 'A', 'R', 'Y']

def demoProps6 : PropList :=
  [(nameSUMMARY, ['P', 'i', 'c', 'n', 'i', 'c']),
   (nameDTSTART, fmtDateTime15Z (goDate 2026 1 5 32400))]

def demoDate6 : Int := goDate 2026 1 19 32400

def demoProps4 : PropList :=
  [(nameSUMMARY, ['G', 'y', 'm']),
   (nameDTSTART, fmtCivil8 (2026, 2, 3))]

def demoDate4 : Int := goDate 2026 2 10 0

/-- Modelled from the spec (§8, first testable property): the overlap test
the claim asserts — `[start, end)` meets `[queryStart, queryEnd)`.  The
source has no such check; this definition exists only to state the
counterexample. -/
def specOverlaps (ev : Event) (qs qe : Int) : Bool :=
  ev.StartTime < qe && qs < ev.EndTime

def evC2 : Event :=
  { UID := ['s', 'o', 'l', 'o'], Title := ['T'], Description := [], Location := []
    StartTime := goDate 2020 3 10 0, EndTime := goDate 2020 3 10 3600
    AllDay := false, Attendees := [], RRule := [] }

/-- The four recognized frequency steps as a total function (equal to
`stepTime` on recognized frequencies); `j`-fold iteration from the
master's start gives the rule's `j`-th candidate occurrence instant. -/
def advanceFreq (freq : List Char) (interval t : Int) : Int :=
  if freq = freqDAILY then goAddDate t 0 0 interval
  else if freq = freqWEEKLY then goAddDate t 0 0 (7 * interval)
  else if freq = freqMONTHLY then goAddDate t 0 interval 0
  else if freq = freqYEARLY then goAddDate t interval 0 0
  else t

def rruleC1 : List Char := "FREQ=WEEKLY;INTERVAL=1;COUNT=4".toList

def evC1 : Event :=
  { UID := ['m', '1'], Title := ['W'], Description := [], Location := []
    StartTime := goDate 2026 1 5 32400, EndTime := goDate 2026 1 5 36000
    AllDay := false, Attendees := [], RRule := rruleC1 }

/-- Whether a rule part is not a COUNT assignment (parts without `=` are
skipped by the parser). -/
def partNotCount (part : List Char) : Bool :=
  match splitN2 '=' part with
  | some kv => !(trimC kv.1 == keyCOUNT)
  | none => true

def ruleC10 : List Char := "FREQ=DAILY".toList

def ruleC5bad : List Char := "FREQ=DAILY;COUNT=abc".toList
def ruleC5bogus : List Char := "FREQ=BOGUS;COUNT=4".toList

def evC5 : Event :=
  { UID := ['b'], Title := ['B'], Description := [], Location := []
    StartTime := goDate 2026 1 5 0, EndTime := goDate 2026 1 5 3600
    AllDay := false, Attendees := [], RRule := ruleC5bogus }

def litINTERVAL1 : List Char := ['I', 'N', 'T', 'E', 'R', 'V', 'A', 'L', '=', '1']

def bigCountDigits : List Char := "9223372036854775808".toList

def bigCountSel : List Char := "DAILY:9223372036854775808".toList

/-! ## Helper lemmas about the expansion loop -/

lemma expandLoop_length_le (base : Event) (freq : List Char)
    (interval untilT startD endD : Int) (exdates : List Int) (dur : Int) :
    ∀ (fuel : Nat) (cur : Int),
    (expandLoop base freq interval untilT startD endD exdates dur fuel cur).length ≤ fuel := by
  intro fuel
  induction fuel with
  | zero => intro cur; simp [expandLoop]
  | succ n ih =>
    intro cur
    simp only [expandLoop]
    split
    · simp
    · split
      · simp
      · cases hs : stepTime freq interval cur with
        | some next =>
          simp only [hs, List.length_append]
          have h2 := ih next
          split <;> simp <;> omega
        | none => simp only [hs]; split <;> simp

lemma effCount_toNat_le (c : Int) : (effCount c).toNat ≤ 1000 := by
  unfold effCount; split <;> omega

/-- Claim C8: for every master event, recurrence rule and query window,
recurrence expansion runs at most `(effCount count).toNat ≤ 1000` loop
iterations and therefore emits at most 1000 occurrences. -/
theorem expansion_bounded_by_cap (base : Event) (rrule : List Char)
    (startD endD : Int) (exdates : List Int) :
    (expandRecurringEvent base rrule startD endD exdates).length
      ≤ (effCount (parseRRule rrule).count).toNat ∧
    (effCount (parseRRule rrule).count).toNat ≤ 1000 := by
  refine ⟨?_, effCount_toNat_le _⟩
  unfold expandRecurringEvent
  exact expandLoop_length_le _ _ _ _ _ _ _ _ _ _

/-! ## Exception editor: frame condition and double-add behaviour -/

lemma propsGetAll_addExclusion_other (props : PropList) (instDate : Int)
    (name : List Char) (h : name ≠ nameEXDATE) :
    propsGetAll name (addExclusion props instDate) = propsGetAll name props := by
  have hne : ¬ (nameEXDATE = name) := fun hEq => h hEq.symm
  simp [propsGetAll, addExclusion, List.filter_append, hne]

lemma propsGetAll_addExclusion_exdate (props : PropList) (instDate : Int) :
    propsGetAll nameEXDATE (addExclusion props instDate)
      = propsGetAll nameEXDATE props ++ [exdateValueFor props instDate] := by
  simp [propsGetAll, addExclusion, List.filter_append]

/-- Claim C6: a single-instance delete changes nothing in the master record
except appending exactly one new EXDATE entry: every other property name
keeps exactly its old values, and the EXDATE slice gains one entry. -/
theorem addExclusion_frame (props : PropList) (instDate : Int) :
    (∀ name : List Char, name ≠ nameEXDATE →
      propsGetAll name (addExclusion props instDate) = propsGetAll name props) ∧
    propsGetAll nameEXDATE (addExclusion props instDate)
      = propsGetAll nameEXDATE props ++ [exdateValueFor props instDate] :=
  ⟨fun name h => propsGetAll_addExclusion_other props instDate name h,
   propsGetAll_addExclusion_exdate props instDate⟩

/-- Witness for C6 at a concrete timed master and the 2026-01-19 instance. -/
theorem addExclusion_frame_witness :
    propsGetAll nameSUMMARY (addExclusion demoProps6 demoDate6)
        = propsGetAll nameSUMMARY demoProps6 ∧
    propsGetAll nameEXDATE (addExclusion demoProps6 demoDate6)
        = propsGetAll nameEXDATE demoProps6 ++ [exdateValueFor demoProps6 demoDate6] :=
  ⟨(addExclusion_frame demoProps6 demoDate6).1 nameSUMMARY (by decide),
   (addExclusion_frame demoProps6 demoDate6).2⟩

lemma isExcludedAt_dup (t x : Int) (exd : List Int) :
    isExcludedAt t (exd ++ [x, x]) = isExcludedAt t (exd ++ [x]) := by
  simp [isExcludedAt]

lemma expandLoop_congr_exdates (base : Event) (freq : List Char)
    (interval untilT startD endD dur : Int) (ex1 ex2 : List Int)
    (h : ∀ t, isExcludedAt t ex1 = isExcludedAt t ex2) :
    ∀ (fuel : Nat) (cur : Int),
    expandLoop base freq interval untilT startD endD ex1 dur fuel cur
      = expandLoop base freq interval untilT startD endD ex2 dur fuel cur := by
  intro fuel
  induction fuel with
  | zero => intro cur; simp [expandLoop]
  | succ n ih =>
    intro cur
    simp only [expandLoop, h cur]
    cases hs : stepTime freq interval cur with
    | some next => simp only [hs, ih next]
    | none => rfl

/-- Counterexample to C4 as stated: adding the same exclusion date twice
does grow a duplicate entry — the EXDATE list after the second add is
longer than after the first, where the claim demands equal lengths. -/
theorem addExclusion_twice_grows_cex :
    (propsGetAll nameEXDATE (addExclusion (addExclusion demoProps4 demoDate4) demoDate4)).length
      ≠ (propsGetAll nameEXDATE (addExclusion demoProps4 demoDate4)).length := by decide

/-- Claim C4, amended: adding the same exclusion date twice still keeps the
occurrence suppressed — a duplicated exclusion date changes nothing in
expansion — but the master's EXDATE list is longer by one after the
second add (`Props.Add` appends unconditionally, it does not dedupe). -/
theorem addExclusion_twice_amended (props : PropList) (instDate : Int)
    (base : Event) (rrule : List Char) (startD endD : Int)
    (exd : List Int) (x : Int) :
    (propsGetAll nameEXDATE (addExclusion (addExclusion props instDate) instDate)).length
      = (propsGetAll nameEXDATE (addExclusion props instDate)).length + 1 ∧
    expandRecurringEvent base rrule startD endD (exd ++ [x, x])
      = expandRecurringEvent base rrule startD endD (exd ++ [x]) := by
  constructor
  · rw [propsGetAll_addExclusion_exdate]
    simp
  · unfold expandRecurringEvent
    exact expandLoop_congr_exdates _ _ _ _ _ _ _ _ _
      (fun t => isExcludedAt_dup t x exd) _ _

/-! ## Non-recurring masters (`GetCalendarEvents`, lines 237–240) -/

/-- Counterexample to C2 as stated: a non-recurring master entirely outside
the query window is still returned as one occurrence — the code appends
it without any overlap check (window filtering is left to the CalDAV
server's time-range query). -/
theorem nonrecurring_no_overlap_check_cex :
    getCalendarEvents [{ ev := evC2, rrule := none, exdates := [] }]
        (goDate 2026 1 1 0) (goDate 2026 2 1 0) = [evC2] ∧
    specOverlaps evC2 (goDate 2026 1 1 0) (goDate 2026 2 1 0) = false := by
  constructor
  · rfl
  · decide

/-- Claim C2, amended: a master without a recurrence rule is always returned
as exactly one occurrence, whether or not it overlaps the query window;
the code performs no overlap test of its own. -/
theorem nonrecurring_always_one (m : MasterComp) (startD endD : Int)
    (h : m.rrule = none) :
    eventsFromMaster m startD endD = [m.ev] ∧
    getCalendarEvents [m] startD endD = [m.ev] := by
  have h1 : eventsFromMaster m startD endD = [m.ev] := by
    simp [eventsFromMaster, h]
  exact ⟨h1, by simp [getCalendarEvents, h1, sortByStart, insertByStart]⟩

/-- Witness for the amended C2 at a concrete singleton master. -/
theorem nonrecurring_always_one_witness :
    eventsFromMaster { ev := evC2, rrule := none, exdates := [] }
        (goDate 2026 1 1 0) (goDate 2026 2 1 0) = [evC2] ∧
    getCalendarEvents [{ ev := evC2, rrule := none, exdates := [] }]
        (goDate 2026 1 1 0) (goDate 2026 2 1 0) = [evC2] :=
  nonrecurring_always_one
    { ev := evC2, rrule := none, exdates := [] }
    (goDate 2026 1 1 0) (goDate 2026 2 1 0) rfl

/-! ## Month grid shape -/

lemma weekday_bounds (d : Int) : 0 ≤ weekday d ∧ weekday d < 7 := by
  unfold weekday; omega

lemma backToSunday_spec : ∀ (fuel : Nat) (d : Int), weekday d < fuel →
    backToSunday fuel d = d - weekday d := by
  intro fuel
  induction fuel with
  | zero => intro d h; have := weekday_bounds d; omega
  | succ n ih =>
    intro d h
    by_cases h0 : weekday d = 0
    · simp [backToSunday, h0]
    · have hw : weekday (d - 1) = weekday d - 1 := by unfold weekday at *; omega
      have hlt : weekday (d - 1) < n := by
        have := weekday_bounds d; omega
      simp only [backToSunday, if_neg h0, ih (d - 1) hlt, hw]
      ring

lemma fwdToSaturday_spec : ∀ (fuel : Nat) (d : Int), 6 - weekday d < fuel →
    fwdToSaturday fuel d = d + (6 - weekday d) := by
  intro fuel
  induction fuel with
  | zero => intro d h; have := weekday_bounds d; omega
  | succ n ih =>
    intro d h
    by_cases h6 : weekday d = 6
    · simp [fwdToSaturday, h6]
    · have hw : weekday (d + 1) = weekday d + 1 := by
        have := weekday_bounds d; unfold weekday at *; omega
      have hlt : 6 - weekday (d + 1) < n := by
        have := weekday_bounds d; omega
      simp only [fwdToSaturday, if_neg h6, ih (d + 1) hlt, hw]
      ring

lemma countP_range_shift_le_one (s t : Int) (n : Nat) :
    (List.range n).countP (fun (i : Nat) => decide (s + i = t)) ≤ 1 := by
  induction n with
  | zero => simp
  | succ k ih =>
    rw [List.range_succ, List.countP_append]
    by_cases h : s + (k : Int) = t
    · have h0 : (List.range k).countP (fun (i : Nat) => decide (s + i = t)) = 0 := by
        rw [List.countP_eq_zero]
        intro i hi
        rw [List.mem_range] at hi
        simp only [decide_eq_true_eq]
        omega
      simp [h0, h]
    · simp [h]
      exact ih

/-- Claim C9: the month grid always has a multiple of seven day-cells (it
spans the Sunday on or before the 1st through the Saturday on or after
the month's last day), and at most one cell carries the today flag. -/
theorem calendarGrid_shape (y m todayDay : Int) :
    (calendarGrid y m todayDay).length % 7 = 0 ∧
    (calendarGrid y m todayDay).countP (fun c => c.isToday) ≤ 1 := by
  have hback := backToSunday_spec 7 (goDateDays y m 1) (weekday_bounds _).2
  have hfwd := fwdToSaturday_spec 7 (addDateDays (goDateDays y m 1) 0 1 (-1))
    (by have := weekday_bounds (addDateDays (goDateDays y m 1) 0 1 (-1)); omega)
  constructor
  · simp only [calendarGrid, List.length_map, List.length_range, hback, hfwd]
    unfold weekday
    omega
  · simp only [calendarGrid, List.countP_map]
    exact countP_range_shift_le_one (backToSunday 7 (goDateDays y m 1)) todayDay _

/-! ## Exact occurrence counts for COUNT-bounded rules -/

lemma stepTime_recognized (freq : List Char)
    (hf : freq = freqDAILY ∨ freq = freqWEEKLY ∨ freq = freqMONTHLY ∨ freq = freqYEARLY)
    (interval t : Int) :
    stepTime freq interval t = some (advanceFreq freq interval t) := by
  rcases hf with h | h | h | h <;> subst h <;> rfl

lemma expandLoop_count_length (base : Event) (freq : List Char)
    (interval startD endD dur : Int) (exdates : List Int)
    (hf : freq = freqDAILY ∨ freq = freqWEEKLY ∨ freq = freqMONTHLY ∨ freq = freqYEARLY) :
    ∀ (fuel : Nat) (cur : Int),
    (∀ j : Nat, j < fuel →
      startD ≤ (advanceFreq freq interval)^[j] cur ∧ (advanceFreq freq interval)^[j] cur ≤ endD) →
    (expandLoop base freq interval goTimeZero startD endD exdates dur fuel cur).length
      = fuel - (List.range fuel).countP
          (fun j => isExcludedAt ((advanceFreq freq interval)^[j] cur) exdates) := by
  intro fuel
  induction fuel with
  | zero => intro cur _; simp [expandLoop]
  | succ n ih =>
    intro cur hw
    have h0 := hw 0 (by omega)
    simp only [Function.iterate_zero, id] at h0
    have hcomp : ((fun j => isExcludedAt ((advanceFreq freq interval)^[j] cur) exdates) ∘ Nat.succ)
        = fun j => isExcludedAt ((advanceFreq freq interval)^[j] (advanceFreq freq interval cur)) exdates := by
      funext j
      simp [Function.iterate_succ_apply]
    have hcount : (List.range n).countP
        (fun j => isExcludedAt ((advanceFreq freq interval)^[j] (advanceFreq freq interval cur)) exdates) ≤ n := by
      calc (List.range n).countP _ ≤ (List.range n).length := List.countP_le_length _
        _ = n := List.length_range n
    have hrec := ih (advanceFreq freq interval cur) (fun j hj => by
      have h1 := hw (j + 1) (by omega)
      simpa [Function.iterate_succ_apply] using h1)
    have hnotend : ¬ (endD < cur) := by omega
    have huntil : ¬ (goTimeZero ≠ goTimeZero ∧ goTimeZero < cur) := by simp
    rw [List.range_succ_eq_map, List.countP_cons, List.countP_map, hcomp]
    simp only [expandLoop, if_neg hnotend, if_neg huntil,
      stepTime_recognized freq hf interval cur]
    by_cases hex : isExcludedAt cur exdates
    · rw [if_neg (by simp [hex])]
      simp only [List.nil_append, hrec, Function.iterate_zero, id_eq, hex, if_true]
      omega
    · rw [if_pos ⟨h0.1, hex⟩]
      rw [Bool.not_eq_true] at hex
      simp only [List.length_append, List.length_singleton, hrec,
        Function.iterate_zero, id_eq, hex, Bool.false_eq_true, if_false]
      omega

/-- Claim C1: a rule with a recognized frequency, no UNTIL and a positive
COUNT `c ≤ 1000`, expanded over a window containing all `c` candidate
occurrences, yields exactly `c` occurrences minus those whose calendar
date is in the exclusion set. -/
theorem count_rule_full_window (base : Event) (rrule : List Char)
    (startD endD : Int) (exdates : List Int) (f : List Char) (c interval : Int)
    (hp : parseRRule rrule = { freq := f, count := c, interval := interval, untilT := goTimeZero })
    (hf : f = freqDAILY ∨ f = freqWEEKLY ∨ f = freqMONTHLY ∨ f = freqYEARLY)
    (hc : 0 < c ∧ c ≤ 1000)
    (hwin : ∀ j : Nat, j < c.toNat →
      startD ≤ (advanceFreq f interval)^[j] base.StartTime ∧
        (advanceFreq f interval)^[j] base.StartTime ≤ endD) :
    (expandRecurringEvent base rrule startD endD exdates).length
      = c.toNat - (List.range c.toNat).countP
          (fun j => isExcludedAt ((advanceFreq f interval)^[j] base.StartTime) exdates) := by
  have heff : effCount c = c := by unfold effCount; omega
  unfold expandRecurringEvent
  rw [hp]
  simp only [heff]
  exact expandLoop_count_length base f interval startD endD
    (base.EndTime - base.StartTime) exdates hf c.toNat base.StartTime hwin

/-- Witness for C1, the spec's scenario: weekly COUNT=4 from Monday
2026-01-05 09:00, one hour long, over [2026-01-01, 2026-02-01) — exactly
four occurrences, 09:00–10:00 on Jan 5, 12, 19 and 26. -/
theorem count_rule_full_window_witness :
    (expandRecurringEvent evC1 rruleC1 (goDate 2026 1 1 0) (goDate 2026 2 1 0) []).length = 4 ∧
    (expandRecurringEvent evC1 rruleC1 (goDate 2026 1 1 0) (goDate 2026 2 1 0) []).map
        (fun ev => (ev.StartTime, ev.EndTime))
      = [(goDate 2026 1 5 32400, goDate 2026 1 5 36000),
         (goDate 2026 1 12 32400, goDate 2026 1 12 36000),
         (goDate 2026 1 19 32400, goDate 2026 1 19 36000),
         (goDate 2026 1 26 32400, goDate 2026 1 26 36000)] := by
  constructor
  · have h := count_rule_full_window evC1 rruleC1 (goDate 2026 1 1 0) (goDate 2026 2 1 0) []
      freqWEEKLY 4 1 (by decide) (Or.inr (Or.inl rfl)) (by decide) (by decide)
    rw [h]
    decide
  · decide

/-! ## Instance identity round trip -/

lemma isDigitC_dch (k : Nat) (h : k ≤ 9) : isDigitC (dch k) = true := by
  interval_cases k <;> decide

lemma dval_dch (k : Nat) (h : k ≤ 9) : dval (dch k) = k := by
  interval_cases k <;> decide

lemma lastIndexOf_eq_neg_one (c : Char) (l : List Char) (h : c ∉ l) :
    lastIndexOf c l = -1 := by
  induction l with
  | nil => rfl
  | cons x xs ih =>
    have hx : ¬ (x = c) := fun hEq => h (hEq ▸ List.mem_cons_self x xs)
    have hxs : c ∉ xs := fun hm => h (List.mem_cons_of_mem x hm)
    simp [lastIndexOf, ih hxs, hx]

lemma lastIndexOf_append_cons (xs ys : List Char) (c : Char) (h : c ∉ ys) :
    lastIndexOf c (xs ++ c :: ys) = (xs.length : Int) := by
  induction xs with
  | nil => simp [lastIndexOf, lastIndexOf_eq_neg_one c ys h]
  | cons x xs ih =>
    simp only [List.cons_append, lastIndexOf, List.append_eq, ih]
    have h0 : (0 : Int) ≤ (xs.length : Int) := Int.natCast_nonneg _
    rw [if_pos h0]
    simp only [List.length_cons]
    push_cast
    ring

lemma daysInMonth_le (y m : Nat) : daysInMonth y m ≤ 31 := by
  unfold daysInMonth
  split_ifs <;> omega

lemma parseDate8_format (y mo d : Nat) (hy : y ≤ 9999)
    (hmo : 1 ≤ mo ∧ mo ≤ 12) (hd : 1 ≤ d ∧ d ≤ daysInMonth y mo) :
    parseDate8 (pad4 y ++ pad2 mo ++ pad2 d) = some (y, mo, d) := by
  have hd99 : d ≤ 31 := le_trans hd.2 (daysInMonth_le y mo)
  have hmo99 : mo ≤ 12 := hmo.2
  have hlist : pad4 y ++ pad2 mo ++ pad2 d =
      [dch (y / 1000), dch (y / 100 % 10), dch (y / 10 % 10), dch (y % 10),
       dch (mo / 10), dch (mo % 10), dch (d / 10), dch (d % 10)] := by
    unfold pad4 pad2
    rw [if_pos hy]
    rfl
  rw [hlist]
  simp only [parseDate8]
  rw [if_pos (by
    simp only [List.all_cons, List.all_nil, Bool.and_true]
    rw [isDigitC_dch _ (by omega), isDigitC_dch _ (by omega), isDigitC_dch _ (by omega),
      isDigitC_dch _ (by omega), isDigitC_dch _ (by omega), isDigitC_dch _ (by omega),
      isDigitC_dch _ (by omega), isDigitC_dch _ (by omega)]
    rfl)]
  simp only [dval_dch _ (show y / 1000 ≤ 9 by omega),
    dval_dch _ (show y / 100 % 10 ≤ 9 by omega),
    dval_dch _ (show y / 10 % 10 ≤ 9 by omega),
    dval_dch _ (show y % 10 ≤ 9 by omega),
    dval_dch _ (show mo / 10 ≤ 9 by omega),
    dval_dch _ (show mo % 10 ≤ 9 by omega),
    dval_dch _ (show d / 10 ≤ 9 by omega),
    dval_dch _ (show d % 10 ≤ 9 by omega)]
  have hyv : 1000 * (y / 1000) + 100 * (y / 100 % 10) + 10 * (y / 10 % 10) + y % 10 = y := by
    omega
  have hmov : 10 * (mo / 10) + mo % 10 = mo := by omega
  have hdv : 10 * (d / 10) + d % 10 = d := by omega
  rw [hyv, hmov, hdv, if_pos ⟨hmo.1, hmo.2, hd.1, hd.2⟩]

lemma dateSuffix_all_digit (y mo d : Nat) (hy : y ≤ 9999)
    (hmo99 : mo ≤ 99) (hd99 : d ≤ 99) :
    (pad4 y ++ pad2 mo ++ pad2 d).all isDigitC = true := by
  have hlist : pad4 y ++ pad2 mo ++ pad2 d =
      [dch (y / 1000), dch (y / 100 % 10), dch (y / 10 % 10), dch (y % 10),
       dch (mo / 10), dch (mo % 10), dch (d / 10), dch (d % 10)] := by
    unfold pad4 pad2
    rw [if_pos hy]
    rfl
  rw [hlist]
  simp only [List.all_cons, List.all_nil, Bool.and_true]
  rw [isDigitC_dch _ (by omega), isDigitC_dch _ (by omega), isDigitC_dch _ (by omega),
    isDigitC_dch _ (by omega), isDigitC_dch _ (by omega), isDigitC_dch _ (by omega),
    isDigitC_dch _ (by omega), isDigitC_dch _ (by omega)]
  rfl

lemma dateSuffix_length (y mo d : Nat) (hy : y ≤ 9999) :
    (pad4 y ++ pad2 mo ++ pad2 d).length = 8 := by
  unfold pad4 pad2
  rw [if_pos hy]
  rfl

/-- Claim C3, amended with `masterID ≠ ""`: resolving
`<masterID>-<YYYYMMDD>` recovers the master identifier, the occurrence
date, and the instance flag, for every non-empty master identifier and
valid occurrence date with a four-digit year.  (No `-<8 digit>` condition
on the master identifier is needed for this direction: the split is on
the last dash.) -/
theorem resolve_instanceUID (mid : List Char) (y mo d : Nat) (hmid : mid ≠ [])
    (hy : y ≤ 9999) (hmo : 1 ≤ mo ∧ mo ≤ 12) (hd : 1 ≤ d ∧ d ≤ daysInMonth y mo) :
    resolveUID (instanceUID mid y mo d) = (mid, some (y, mo, d), true) := by
  have hd99 : d ≤ 99 := le_trans hd.2 (le_trans (daysInMonth_le y mo) (by omega))
  have hall := dateSuffix_all_digit y mo d hy (by omega) hd99
  have hnotin : '-' ∉ (pad4 y ++ pad2 mo ++ pad2 d) := by
    intro hmem
    have := List.all_eq_true.mp hall _ hmem
    simp [isDigitC] at this
  unfold instanceUID resolveUID
  rw [lastIndexOf_append_cons mid _ '-' hnotin]
  have hpos : (0 : Int) < (mid.length : Int) := by
    have : 0 < mid.length := List.length_pos.mpr hmid
    omega
  rw [if_pos hpos]
  simp only [Int.toNat_natCast]
  have hsplit : mid ++ '-' :: (pad4 y ++ pad2 mo ++ pad2 d)
      = (mid ++ ['-']) ++ (pad4 y ++ pad2 mo ++ pad2 d) := by simp
  have hdrop : (mid ++ '-' :: (pad4 y ++ pad2 mo ++ pad2 d)).drop (mid.length + 1)
      = pad4 y ++ pad2 mo ++ pad2 d := by
    rw [hsplit]
    have hlen : (mid ++ ['-']).length = mid.length + 1 := by simp
    rw [← hlen, List.drop_left]
  have htake : (mid ++ '-' :: (pad4 y ++ pad2 mo ++ pad2 d)).take mid.length = mid :=
    List.take_left mid ('-' :: (pad4 y ++ pad2 mo ++ pad2 d))
  rw [hdrop]
  rw [if_pos ⟨dateSuffix_length y mo d hy, hall⟩]
  rw [htake, parseDate8_format y mo d hy hmo hd]

/-- Counterexample to C3 as stated: for the empty master identifier (which
does not end in a dash followed by eight digits), resolving the built
instance identifier `-20260105` does not return the master identifier
with `isInstance = true` — the `idx > 0` guard makes the whole string the
master and reports no instance. -/
theorem resolve_instanceUID_empty_cex :
    resolveUID (instanceUID [] 2026 1 5) = (instanceUID [] 2026 1 5, none, false) ∧
    instanceUID [] 2026 1 5 ≠ [] := by
  constructor
  · decide
  · decide

/-- Witness for the amended C3 at the concrete master `m1` and the date
2026-01-19. -/
theorem resolve_instanceUID_witness :
    resolveUID (instanceUID ['m', '1'] 2026 1 19) = (['m', '1'], some (2026, 1, 19), true) :=
  resolve_instanceUID ['m', '1'] 2026 1 19 (by decide) (by decide)
    (by decide) (by decide)

/-! ## Default COUNT and the reach of the 1000 cap -/

lemma parseRRulePart_count (acc : RRuleParams) (part : List Char)
    (h : partNotCount part = true) :
    (parseRRulePart acc part).count = acc.count := by
  cases hs : splitN2 '=' part with
  | none => simp [parseRRulePart, hs]
  | some kv =>
    have hkey : ¬ (trimC kv.1 = keyCOUNT) := by
      have h2 := h
      unfold partNotCount at h2
      rw [hs] at h2
      simpa using h2
    simp only [parseRRulePart, hs]
    by_cases h1 : trimC kv.1 = keyFREQ
    · simp [h1]
    · rw [if_neg h1, if_neg hkey]
      by_cases h3 : trimC kv.1 = keyINTERVAL
      · rw [if_pos h3]
        cases hval : sscanfInt (trimC kv.2) <;> simp
      · rw [if_neg h3]
        by_cases h4 : trimC kv.1 = keyUNTIL
        · rw [if_pos h4]
          cases hval : parseDateTime15Z (trimC kv.2) with
          | some t => simp
          | none => cases hval2 : parseDate8Time (trimC kv.2) <;> simp
        · rw [if_neg h4]

lemma foldl_parse_count (parts : List (List Char)) (acc : RRuleParams)
    (h : parts.all partNotCount = true) :
    (parts.foldl parseRRulePart acc).count = acc.count := by
  induction parts generalizing acc with
  | nil => rfl
  | cons p ps ih =>
    rw [List.all_cons, Bool.and_eq_true] at h
    rw [List.foldl_cons, ih _ h.2, parseRRulePart_count acc p h.1]

/-- Claim C10: a rule that declares no COUNT field keeps the decoder's
default of 365, so its expansion runs at most 365 steps and returns at
most 365 occurrences; the 1000 cap only changes counts above 1000. -/
theorem no_count_defaults (rrule : List Char)
    (h : (splitOnC ';' (replace2 '\\' ',' ',' (replace2 '\\' ';' ';' rrule))).all
      partNotCount = true) :
    (parseRRule rrule).count = 365 ∧
    (∀ (base : Event) (startD endD : Int) (exd : List Int),
      (expandRecurringEvent base rrule startD endD exd).length ≤ 365) ∧
    (∀ c : Int, c ≤ 1000 → effCount c = c) := by
  have hcount : (parseRRule rrule).count = 365 := foldl_parse_count _ _ h
  refine ⟨hcount, ?_, ?_⟩
  · intro base startD endD exd
    have hlen : (expandRecurringEvent base rrule startD endD exd).length
        ≤ (effCount (parseRRule rrule).count).toNat := by
      unfold expandRecurringEvent
      exact expandLoop_length_le _ _ _ _ _ _ _ _ _ _
    rw [hcount] at hlen
    exact le_trans hlen (by decide)
  · intro c hc
    unfold effCount
    omega

/-- Witness for C10 at the COUNT-free rule `FREQ=DAILY`. -/
theorem no_count_defaults_witness :
    (parseRRule ruleC10).count = 365 ∧ effCount 500 = 500 :=
  ⟨(no_count_defaults ruleC10 (by decide)).1,
   (no_count_defaults ruleC10 (by decide)).2.2 500 (by decide)⟩

/-! ## No MalformedRule rejection -/

/-- Counterexample to C5 as stated: a COUNT value that fails to parse is
silently dropped (the decoder returns the defaults, count 365, instead
of failing), and a rule with an unrecognized FREQ is still applied —
expansion emits the base occurrence rather than rejecting the rule. -/
theorem malformed_rule_not_rejected_cex :
    parseRRule ruleC5bad
      = { freq := freqDAILY, count := 365, interval := 1, untilT := goTimeZero } ∧
    expandRecurringEvent evC5 ruleC5bogus (goDate 2026 1 1 0) (goDate 2026 1 5 43200) []
      = [mkOccurrence evC5 (goDate 2026 1 5 0) 3600] := by
  constructor
  · decide
  · decide

lemma stepTime_unknown (freq : List Char)
    (hf : ¬ (freq = freqDAILY ∨ freq = freqWEEKLY ∨ freq = freqMONTHLY ∨ freq = freqYEARLY))
    (interval t : Int) : stepTime freq interval t = none := by
  push_neg at hf
  simp [stepTime, hf.1, hf.2.1, hf.2.2.1, hf.2.2.2]

lemma expandLoop_unknown_len (base : Event) (freq : List Char)
    (interval untilT startD endD dur : Int) (exd : List Int)
    (hn : ∀ t, stepTime freq interval t = none) :
    ∀ (fuel : Nat) (cur : Int),
    (expandLoop base freq interval untilT startD endD exd dur fuel cur).length ≤ 1 := by
  intro fuel cur
  cases fuel with
  | zero => simp [expandLoop]
  | succ n =>
    simp only [expandLoop, hn cur]
    split
    · simp
    · split
      · simp
      · split <;> simp

/-- Claim C5, amended: decoding never fails.  COUNT/INTERVAL values that do
not parse as integers are silently ignored (the defaults 365 and 1
remain) and an unparseable UNTIL is treated as absent; a rule whose
frequency is not one of the four recognized tokens makes expansion stop
at the first step, emitting at most the first occurrence, with no error. -/
theorem unknown_freq_stops_early (base : Event) (rrule : List Char)
    (startD endD : Int) (exd : List Int)
    (hf : ¬ ((parseRRule rrule).freq = freqDAILY ∨ (parseRRule rrule).freq = freqWEEKLY ∨
      (parseRRule rrule).freq = freqMONTHLY ∨ (parseRRule rrule).freq = freqYEARLY)) :
    (expandRecurringEvent base rrule startD endD exd).length ≤ 1 := by
  unfold expandRecurringEvent
  exact expandLoop_unknown_len _ _ _ _ _ _ _ _
    (fun t => stepTime_unknown _ hf _ t) _ _

/-- Witness for the amended C5 at the `FREQ=BOGUS` rule. -/
theorem unknown_freq_stops_early_witness :
    (expandRecurringEvent evC5 ruleC5bogus (goDate 2026 1 1 0)
      (goDate 2026 3 1 0) []).length ≤ 1 :=
  unknown_freq_stops_early evC5 ruleC5bogus (goDate 2026 1 1 0)
    (goDate 2026 3 1 0) [] (by decide)

/-! ## Round trip of the encoder through the decoder -/

lemma natDigitsGo_spec : ∀ (fuel n : Nat), n ≤ fuel →
    (natDigitsGo fuel n).all isDigitC = true ∧
    digitsVal (natDigitsGo fuel n) = n ∧ natDigitsGo fuel n ≠ [] := by
  intro fuel
  induction fuel with
  | zero =>
    intro n hn
    have hz : n = 0 := by omega
    subst hz
    refine ⟨by decide, by decide, by decide⟩
  | succ f ih =>
    intro n hn
    by_cases h10 : n < 10
    · refine ⟨?_, ?_, ?_⟩
      · simp only [natDigitsGo, if_pos h10, List.all_cons, List.all_nil, Bool.and_true]
        exact isDigitC_dch n (by omega)
      · simp only [natDigitsGo, if_pos h10, digitsVal, List.foldl_cons, List.foldl_nil]
        rw [dval_dch n (by omega)]
        omega
      · simp [natDigitsGo, if_pos h10]
    · have hrec := ih (n / 10) (by omega)
      refine ⟨?_, ?_, ?_⟩
      · simp only [natDigitsGo, if_neg h10, List.all_append, Bool.and_eq_true]
        exact ⟨hrec.1, by
          simp only [List.all_cons, List.all_nil, Bool.and_true]
          exact isDigitC_dch _ (by omega)⟩
      · simp only [natDigitsGo, if_neg h10, digitsVal, List.foldl_append,
          List.foldl_cons, List.foldl_nil]
        have hv := hrec.2.1
        unfold digitsVal at hv
        rw [hv, dval_dch _ (by omega)]
        omega
      · simp [natDigitsGo, if_neg h10]

lemma natDigits_spec (n : Nat) :
    (natDigits n).all isDigitC = true ∧
    digitsVal (natDigits n) = n ∧ natDigits n ≠ [] :=
  natDigitsGo_spec n n (le_refl n)

lemma isSpaceC_false_of_digit (c : Char) (h : isDigitC c = true) :
    isSpaceC c = false := by
  have h1 : c ≠ ' ' := fun hEq => by rw [hEq] at h; exact absurd h (by decide)
  have h2 : c ≠ '\t' := fun hEq => by rw [hEq] at h; exact absurd h (by decide)
  have h3 : c ≠ '\n' := fun hEq => by rw [hEq] at h; exact absurd h (by decide)
  have h4 : c ≠ '\r' := fun hEq => by rw [hEq] at h; exact absurd h (by decide)
  simp [isSpaceC, h1, h2, h3, h4]

lemma takeWhile_of_all (p : Char → Bool) (l : List Char) (h : l.all p = true) :
    l.takeWhile p = l := by
  induction l with
  | nil => rfl
  | cons c cs ih =>
    rw [List.all_cons, Bool.and_eq_true] at h
    rw [List.takeWhile_cons, if_pos h.1, ih h.2]

lemma dropWhile_of_all_not (p : Char → Bool) (l : List Char)
    (h : ∀ c ∈ l, p c = false) : l.dropWhile p = l := by
  cases l with
  | nil => rfl
  | cons c cs =>
    rw [List.dropWhile_cons, h c (List.mem_cons_self c cs)]
    simp

lemma trimC_of_all_digit (l : List Char) (h : l.all isDigitC = true) :
    trimC l = l := by
  have hns : ∀ c ∈ l, isSpaceC c = false := fun c hc =>
    isSpaceC_false_of_digit c (List.all_eq_true.mp h c hc)
  unfold trimC
  rw [dropWhile_of_all_not _ _ hns]
  rw [dropWhile_of_all_not _ _ (fun c hc => hns c (List.mem_reverse.mp hc))]
  exact List.reverse_reverse l

lemma sscanfInt_digits (l : List Char) (hne : l ≠ []) (hall : l.all isDigitC = true)
    (hrange : (digitsVal l : Int) ≤ 2 ^ 63 - 1) :
    sscanfInt l = some ((digitsVal l : Nat) : Int) := by
  cases l with
  | nil => exact absurd rfl hne
  | cons c cs =>
    rw [List.all_cons, Bool.and_eq_true] at hall
    have hcd : isDigitC c = true := hall.1
    have hspace : isSpaceC c = false := isSpaceC_false_of_digit c hcd
    have hcm : c ≠ '-' := fun hEq => by rw [hEq] at hcd; exact absurd hcd (by decide)
    have hcp : c ≠ '+' := fun hEq => by rw [hEq] at hcd; exact absurd hcd (by decide)
    unfold sscanfInt
    rw [List.dropWhile_cons, hspace]
    simp only [Bool.false_eq_true, if_false, List.head?_cons]
    have hm1 : ¬ (some c = some '-') := by simp [hcm]
    have hm2 : ¬ (some c = some '-' ∨ some c = some '+') := by simp [hcm, hcp]
    rw [if_neg hm1, if_neg hm2]
    rw [takeWhile_of_all isDigitC (c :: cs) (by simp [hcd, hall.2])]
    rw [if_neg (by simp)]
    rw [one_mul]
    have hnn : (0 : Int) ≤ ((digitsVal (c :: cs) : Nat) : Int) := Int.natCast_nonneg _
    rw [if_neg (by push_neg; constructor <;> omega)]

lemma replace2_id (a b c : Char) (l : List Char) (h : a ∉ l) :
    replace2 a b c l = l := by
  induction l with
  | nil => rfl
  | cons x xs ih =>
    have hx : ¬ (x = a) := fun hEq => h (hEq ▸ List.mem_cons_self x xs)
    have hxs : a ∉ xs := fun hm => h (List.mem_cons_of_mem x hm)
    cases xs with
    | nil => rfl
    | cons y rest =>
      have : ¬ (x = a ∧ y = b) := fun hand => hx hand.1
      rw [replace2, if_neg this, ih hxs]

lemma splitN2_append (c : Char) (xs ys : List Char) (h : c ∉ xs) :
    splitN2 c (xs ++ c :: ys) = some (xs, ys) := by
  induction xs with
  | nil => simp [splitN2]
  | cons x xt ih =>
    have hx : ¬ (x = c) := fun hEq => h (hEq ▸ List.mem_cons_self x xt)
    have hxt : c ∉ xt := fun hm => h (List.mem_cons_of_mem x hm)
    rw [List.cons_append, splitN2, if_neg hx, ih hxt]

lemma splitOnC_ne_nil (c : Char) (l : List Char) : splitOnC c l ≠ [] := by
  cases l with
  | nil => simp [splitOnC]
  | cons x xs =>
    rw [splitOnC]
    cases splitOnC c xs with
    | nil => simp
    | cons hh tt =>
      by_cases hx : x = c
      · simp [hx]
      · simp [hx]

lemma splitOnC_no (c : Char) (l : List Char) (h : c ∉ l) :
    splitOnC c l = [l] := by
  induction l with
  | nil => rfl
  | cons x xs ih =>
    have hx : ¬ (x = c) := fun hEq => h (hEq ▸ List.mem_cons_self x xs)
    have hxs : c ∉ xs := fun hm => h (List.mem_cons_of_mem x hm)
    rw [splitOnC, ih hxs]
    simp [hx]

lemma splitOnC_append (c : Char) (xs ys : List Char) (h : c ∉ xs) :
    splitOnC c (xs ++ c :: ys) = xs :: splitOnC c ys := by
  induction xs with
  | nil =>
    rw [List.nil_append, splitOnC]
    cases hsp : splitOnC c ys with
    | nil => exact absurd hsp (splitOnC_ne_nil c ys)
    | cons hh tt => simp
  | cons x xt ih =>
    have hx : ¬ (x = c) := fun hEq => h (hEq ▸ List.mem_cons_self x xt)
    have hxt : c ∉ xt := fun hm => h (List.mem_cons_of_mem x hm)
    rw [List.cons_append, splitOnC, ih hxt]
    simp [hx]

lemma parseRRulePart_freq_eq (acc : RRuleParams) (ds : List Char) :
    parseRRulePart acc (keyFREQ ++ '=' :: ds) = { acc with freq := trimC ds } := rfl

lemma parseRRulePart_interval1 (acc : RRuleParams) :
    parseRRulePart acc litINTERVAL1 = { acc with interval := 1 } := rfl

lemma parseRRulePart_count_eq (acc : RRuleParams) (ds : List Char) :
    parseRRulePart acc (keyCOUNT ++ '=' :: ds)
      = match sscanfInt (trimC ds) with
        | some k => { acc with count := k }
        | none => acc := rfl

lemma parse_encoded (f : List Char) (n : Nat) (hn : n < 2 ^ 63)
    (hsemi : ';' ∉ f) (hbs : '\\' ∉ f) (htr : trimC f = f) :
    parseRRule (litFREQeq ++ f ++ litINTERVALCOUNT ++ natDigits n)
      = { freq := f, count := (n : Int), interval := 1, untilT := goTimeZero } := by
  have hdig := natDigits_spec n
  have hdigc : ∀ c ∈ natDigits n, isDigitC c = true :=
    fun c hc => List.all_eq_true.mp hdig.1 c hc
  have hsemiD : ';' ∉ natDigits n := fun hm => absurd (hdigc _ hm) (by decide)
  have hbsD : '\\' ∉ natDigits n := fun hm => absurd (hdigc _ hm) (by decide)
  have hbsE : '\\' ∉ litFREQeq ++ f ++ litINTERVALCOUNT ++ natDigits n := by
    simp only [List.mem_append]
    rintro (((hm | hm) | hm) | hm)
    · exact absurd hm (by decide)
    · exact hbs hm
    · exact absurd hm (by decide)
    · exact hbsD hm
  have hE : litFREQeq ++ f ++ litINTERVALCOUNT ++ natDigits n
      = (keyFREQ ++ '=' :: f) ++ ';' :: (litINTERVAL1 ++ ';' :: (keyCOUNT ++ '=' :: natDigits n)) := by
    simp [litFREQeq, litINTERVALCOUNT, litINTERVAL1, keyFREQ, keyCOUNT]
  have hs1 : ';' ∉ keyFREQ ++ '=' :: f := by
    simp only [List.mem_append, List.mem_cons]
    rintro (hm | hm | hm)
    · exact absurd hm (by decide)
    · exact absurd hm (by decide)
    · exact hsemi hm
  have hs3 : ';' ∉ keyCOUNT ++ '=' :: natDigits n := by
    simp only [List.mem_append, List.mem_cons]
    rintro (hm | hm | hm)
    · exact absurd hm (by decide)
    · exact absurd hm (by decide)
    · exact hsemiD hm
  unfold parseRRule
  rw [replace2_id '\\' ';' ';' _ hbsE, replace2_id '\\' ',' ',' _ hbsE, hE]
  rw [splitOnC_append ';' (keyFREQ ++ '=' :: f) _ hs1]
  rw [splitOnC_append ';' litINTERVAL1 _ (by decide)]
  rw [splitOnC_no ';' (keyCOUNT ++ '=' :: natDigits n) hs3]
  rw [List.foldl_cons, List.foldl_cons, List.foldl_cons, List.foldl_nil]
  have hrange : (digitsVal (natDigits n) : Int) ≤ 2 ^ 63 - 1 := by
    rw [hdig.2.1]
    omega
  rw [parseRRulePart_freq_eq, htr, parseRRulePart_interval1, parseRRulePart_count_eq]
  rw [trimC_of_all_digit _ hdig.1, sscanfInt_digits _ hdig.2.2 hdig.1 hrange, hdig.2.1]
  rfl

/-- Counterexample to C7 as stated: at `COUNT=9223372036854775808` (2^63),
a value the encoder accepts, the decoder's `Sscanf` fails with int64
overflow and silently keeps the default count 365, so decoding does not
reproduce the encoded logical rule. -/
theorem rrule_roundtrip_overflow_cex :
    convertToRRule bigCountSel
      = litFREQeq ++ freqDAILY ++ litINTERVALCOUNT ++ bigCountDigits ∧
    (parseRRule (convertToRRule bigCountSel)).count = 365 ∧
    sscanfInt bigCountDigits = none := by
  refine ⟨by decide, by decide, by decide⟩

/-- Claim C7, amended: for every recognized frequency and every count below
2^63 (the values `fmt.Sscanf %d` can store in an `int`), decoding the
encoded rule reproduces the same logical rule (frequency, interval 1,
the same count, no until); and the encoding always contains the literal
`INTERVAL=1` even though the interval is 1. -/
theorem rrule_roundtrip (f : List Char) (n : Nat) (hn : n < 2 ^ 63)
    (hf : f = freqDAILY ∨ f = freqWEEKLY ∨ f = freqMONTHLY ∨ f = freqYEARLY) :
    convertToRRule (f ++ ':' :: natDigits n)
      = litFREQeq ++ f ++ litINTERVALCOUNT ++ natDigits n ∧
    parseRRule (convertToRRule (f ++ ':' :: natDigits n))
      = { freq := f, count := (n : Int), interval := 1, untilT := goTimeZero } := by
  have hcolon : ':' ∉ f := by rcases hf with h | h | h | h <;> subst h <;> decide
  have henc : convertToRRule (f ++ ':' :: natDigits n)
      = litFREQeq ++ f ++ litINTERVALCOUNT ++ natDigits n := by
    unfold convertToRRule
    rw [splitN2_append ':' f (natDigits n) hcolon]
  refine ⟨henc, ?_⟩
  rw [henc]
  refine parse_encoded f n hn ?_ ?_ ?_
  · rcases hf with h | h | h | h <;> subst h <;> decide
  · rcases hf with h | h | h | h <;> subst h <;> decide
  · rcases hf with h | h | h | h <;> subst h <;> decide

/-- Witness for the amended C7 at `WEEKLY:4`. -/
theorem rrule_roundtrip_witness :
    convertToRRule (freqWEEKLY ++ ':' :: natDigits 4)
      = litFREQeq ++ freqWEEKLY ++ litINTERVALCOUNT ++ natDigits 4 ∧
    parseRRule (convertToRRule (freqWEEKLY ++ ':' :: natDigits 4))
      = { freq := freqWEEKLY, count := (4 : Nat), interval := 1, untilT := goTimeZero } :=
  rrule_roundtrip freqWEEKLY 4 (by norm_num) (Or.inr (Or.inl rfl))

end Blazemarker
